import Mathlib

/-
  Verification development for the MedScanAI prescription parser.

  The Python source (parser.py) is shallowly embedded below:
  - clean_ocr_lines  : the OCR line normalizer,
  - detect_timing     : the timing-token detector,
  - detect_duration   : the duration-token detector,
  - find_medicine_name: the fuzzy-match acceptance logic (the external
    rapidfuzz extractOne call is a function parameter named ex),
  - parse_prescription: the window-scanning extractor, threading an
    abstract pseudo-random sampler state for the flavor-text draws.

  Machine strings are modelled as Lean String / List Char over the
  ASCII fragment the program manipulates; Python whitespace and case
  handling is modelled for the ASCII range.
-/

namespace MedScan

/-- The Python whitespace class, restricted to ASCII. -/
def isWs (c : Char) : Bool :=
  c == ' ' || c == '\t' || c == '\n' || c == '\r' || c == '\x0B' || c == '\x0C'

/-- ASCII lower-casing of a single character, as str.lower does on ASCII. -/
def asciiLowerChar (c : Char) : Char :=
  if 'A' ≤ c ∧ c ≤ 'Z' then Char.ofNat (c.toNat + 32) else c

/-- Lower-case a string into its character list. -/
def lowerList (s : String) : List Char := s.toList.map asciiLowerChar

/-- Python str.strip on a character list: drop leading and trailing whitespace. -/
def pyStrip (l : List Char) : List Char :=
  ((l.dropWhile isWs).reverse.dropWhile isWs).reverse

/-- First-some choice on options. -/
def optOr {α : Type} : Option α → Option α → Option α
  | some a, _ => some a
  | none, b => b

/-- Does pat occur as a contiguous substring, as the Python in operator. -/
def substrOccurs (pat : List Char) : List Char → Bool
  | [] => pat.isEmpty
  | c :: rest => pat.isPrefixOf (c :: rest) || substrOccurs pat rest

/-- Python str.replace: left-to-right, non-overlapping. Fuel is the
length of the subject, enough because each step consumes at least one
character of the subject (every pattern used is non-empty). -/
def pyReplaceAux (pat rep : List Char) : Nat → List Char → List Char
  | _, [] => []
  | 0, s => s
  | fuel + 1, c :: rest =>
    if pat.isPrefixOf (c :: rest) then
      rep ++ pyReplaceAux pat rep fuel (rest.drop (pat.length - 1))
    else
      c :: pyReplaceAux pat rep fuel rest

/-- Python str.replace on character lists. -/
def pyReplace (s pat rep : List Char) : List Char :=
  pyReplaceAux pat rep s.length s

/-- re.sub collapsing every whitespace run to a single space.
The boolean argument records whether the previous character was whitespace. -/
def collapseWsAux : Bool → List Char → List Char
  | _, [] => []
  | prevWs, c :: rest =>
    if isWs c then
      if prevWs then collapseWsAux true rest
      else ' ' :: collapseWsAux true rest
    else c :: collapseWsAux false rest

/-- Collapse whitespace runs, as re.sub of one or more whitespace to one space. -/
def collapseWs (l : List Char) : List Char := collapseWsAux false l

/-- The character sanitization of clean_ocr_lines: every character outside
lower-case letters, digits, whitespace and hyphen becomes a space. -/
def sanitizeChar (c : Char) : Char :=
  if ('a' ≤ c ∧ c ≤ 'z') || c.isDigit || isWs c || c == '-' then c else ' '

/-- A timing-slot digit: 0, 1 or 2. -/
def slot (c : Char) : Bool := c == '0' || c == '1' || c == '2'

/-- The fullmatch of the broken-timing shape: slot, hyphen, slot, optional
trailing hyphen. -/
def timingBrokenShape : List Char → Bool
  | [a, h1, b] => slot a && h1 == '-' && slot b
  | [a, h1, b, h2] => slot a && h1 == '-' && slot b && h2 == '-'
  | _ => false

/-- Python str.split on the hyphen character (keeps empty fields). -/
def pySplitDash : List Char → List (List Char)
  | [] => [[]]
  | c :: rest =>
    match pySplitDash rest with
    | [] => [[]]
    | p :: ps => if c == '-' then [] :: p :: ps else (c :: p) :: ps

/-- The while loop appending the character 1 until three parts are present. -/
def padTo3 : List (List Char) → List (List Char)
  | [] => [['1'], ['1'], ['1']]
  | [a] => [a, ['1'], ['1']]
  | [a, b] => [a, b, ['1']]
  | l => l

/-- Rejoin the split parts with hyphens. -/
def joinDash (ps : List (List Char)) : List Char := List.intercalate ['-'] ps

/-- The broken-timing repair step of clean_ocr_lines. -/
def timingRepair (t : List Char) : List Char :=
  if timingBrokenShape t then joinDash (padTo3 (pySplitDash t)) else t

/-- The garbage_words list of clean_ocr_lines. -/
def garbage_words : List (List Char) :=
  [("hospital").toList, ("mbbs").toList, ("obg").toList, ("gyn").toList,
   ("paediatrics").toList, ("opp").toList, ("road").toList, ("nagar").toList,
   ("reddy").toList, ("sudha").toList, ("doctor").toList, ("date").toList]

/-- The replacements table of clean_ocr_lines, in insertion order. -/
def replacements : List (List Char × List Char) :=
  [(("dolo-").toList, ("dolo 650").toList),
   (("tombiflam").toList, ("combiflam").toList),
   (("combiflem").toList, ("combiflam").toList),
   (("combilam").toList, ("combiflam").toList),
   (("epbin").toList, ("eptoin").toList),
   (("eploin").toList, ("eptoin").toList),
   (("i-0-1").toList, ("1-0-1").toList),
   (("i-i-1").toList, ("1-1-1").toList),
   (("l-0-1").toList, ("1-0-1").toList)]

/-- The per-line pass of clean_ocr_lines: lower and strip, drop empty lines,
drop lines containing a garbage word, apply the replacements, sanitize
characters, collapse whitespace and strip, repair broken timing shapes,
and keep the line if non-empty. -/
def cleanLine (raw : List Char) : Option (List Char) :=
  let t := pyStrip (raw.map asciiLowerChar)
  if t.isEmpty then none
  else if garbage_words.any (fun g => substrOccurs g t) then none
  else
    let t1 := replacements.foldl (fun acc wc => pyReplace acc wc.1 wc.2) t
    let t2 := pyStrip (collapseWs (t1.map sanitizeChar))
    let t3 := timingRepair t2
    if t3.isEmpty then none else some t3

/-- Python str.isdigit: non-empty and all digits. -/
def pyIsDigits (l : List Char) : Bool := !l.isEmpty && l.all Char.isDigit

/-- Does the line contain the substring day. -/
def hasDay (l : List Char) : Bool := substrOccurs (("day").toList) l

/-- The cross-line merge pass of clean_ocr_lines: a purely numeric line
followed by a line containing day becomes one line of the form n days. -/
def mergePass : List (List Char) → List (List Char)
  | [] => []
  | [x] => [x]
  | x :: y :: rest =>
    if pyIsDigits x && hasDay y then
      (x ++ (" days").toList) :: mergePass rest
    else
      x :: mergePass (y :: rest)

/-- clean_ocr_lines from parser.py: the per-line pass followed by the
merge pass. -/
def clean_ocr_lines (raw : List String) : List String :=
  (mergePass ((raw.map String.toList).filterMap cleanLine)).map String.mk

/-- The fullmatch of a complete 3-slot timing pattern. -/
def timingFullShape : List Char → Bool
  | [a, h1, b, h2, c] => slot a && h1 == '-' && slot b && h2 == '-' && slot c
  | _ => false

/-- detect_timing from parser.py: strip and lower, then accept a literal
3-slot pattern, or the abbreviations bd, od, tds. -/
def detect_timing (t : String) : Option String :=
  let s := pyStrip (lowerList t)
  if timingFullShape s then some (String.mk s)
  else if s = ['b', 'd'] then some ("1-0-1")
  else if s = ['o', 'd'] then some ("1-0-0")
  else if s = ['t', 'd', 's'] then some ("1-1-1")
  else none

/-- Decimal value of a digit list, as Python int conversion. -/
def natOfDigits (l : List Char) : Nat :=
  l.foldl (fun n c => 10 * n + (c.toNat - 48)) 0

/-- One attempted match of the regex digits, optional whitespace, then the
literal day, anchored at the start of the list: take the maximal digit run,
skip whitespace, and require the prefix day. Backtracking cannot help this
pattern, so maximal-munch is exact. -/
def numDayAt (cs : List Char) : Option Nat :=
  let ds := cs.takeWhile Char.isDigit
  if ds.isEmpty then none
  else if (("day").toList).isPrefixOf ((cs.dropWhile Char.isDigit).dropWhile isWs) then
    some (natOfDigits ds)
  else none

/-- re.search for the digits-whitespace-day pattern: try every start
position left to right. -/
def searchNumDay : List Char → Option Nat
  | [] => none
  | c :: rest => optOr (numDayAt (c :: rest)) (searchNumDay rest)

/-- detect_duration from parser.py: lower (no strip), search for a numeral
followed by day anywhere; otherwise fullmatch a bare 1-or-2-digit numeral
and accept it when its value lies in 1..30. -/
def detect_duration (t : String) : Option Nat :=
  let cs := lowerList t
  match searchNumDay cs with
  | some v => some v
  | none =>
    if pyIsDigits cs ∧ cs.length ≤ 2 then
      if 1 ≤ natOfDigits cs ∧ natOfDigits cs ≤ 30 then some (natOfDigits cs)
      else none
    else none

/-- The truthiness filter the extractor applies to a duration detection:
Python treats a detected 0 as false, so it is never assigned. -/
def durFilter (l : String) : Option Nat :=
  match detect_duration l with
  | some v => if v = 0 then none else some v
  | none => none

/-- The timing detections of a list of lines, in order. -/
def timingsIn (ls : List String) : List String := ls.filterMap detect_timing

/-- The truthy (non-zero) duration detections of a list of lines, in order. -/
def durationsIn (ls : List String) : List Nat := ls.filterMap durFilter

/-- The canonical medicine table row: brand, generic, price. -/
structure MedRow where
  brand : String
  generic : String
  price : ℚ
deriving DecidableEq

/-- find_medicine_name from parser.py, with the external rapidfuzz
extractOne call abstracted as the oracle ex returning the best candidate
as match text, score (0 to 100) and row index. -/
def find_medicine_name (ex : String → Option (String × ℚ × Nat)) (raw : String) : Option Nat :=
  let r := pyStrip (lowerList raw)
  if r.length < 3 then none
  else
    match ex (String.mk r) with
    | some best => if (88 : ℚ) ≤ best.2.1 then some best.2.2 else none
    | none => none

/-- The lower-and-strip applied to a line at the top of the parser loop. -/
def normLine (s : String) : String := String.mk (pyStrip (lowerList s))

/-- The forward-window loop body: an unconditional overwrite for a truthy
timing detection, and for a truthy (non-zero) duration detection. -/
def forwardStep (acc : Option String × Option Nat) (tline : String) :
    Option String × Option Nat :=
  (match detect_timing tline with
   | some s => some s
   | none => acc.1,
   match detect_duration tline with
   | some v => if v = 0 then acc.2 else some v
   | none => acc.2)

/-- The backward-window loop body: assign only when not already set. -/
def backwardStep (acc : Option String × Option Nat) (tline : String) :
    Option String × Option Nat :=
  (match acc.1 with
   | some s => some s
   | none => detect_timing tline,
   match acc.2 with
   | some v => some v
   | none =>
     match detect_duration tline with
     | some v => if v = 0 then none else some v
     | none => none)

/-- The forward window of index i: the next two lines, bounded by the end. -/
def fwdWindow (lines : List String) (i : Nat) : List String :=
  (lines.drop (i + 1)).take 2

/-- The backward window of index i: the previous two lines, bounded by the
start. -/
def bwdWindow (lines : List String) (i : Nat) : List String :=
  (lines.take i).drop (i - 2)

/-- The timing/duration slot filling around index i: forward loop then
backward loop, starting from unset slots. -/
def scanTD (lines : List String) (i : Nat) : Option String × Option Nat :=
  (bwdWindow lines i).foldl backwardStep
    ((fwdWindow lines i).foldl forwardStep (none, none))

/-- A prescription record without the flavor text. -/
structure MedCore where
  brand : String
  generic : String
  price : ℚ
  timing : String
  duration : Nat
deriving DecidableEq

/-- The body of the parser loop at one index: match the medicine name,
scan the window, apply the evidence gate, fill defaults. -/
def recordAt (ex : String → Option (String × ℚ × Nat)) (tbl : Nat → MedRow)
    (lines : List String) (i : Nat) : Option MedCore :=
  let line := normLine (lines.getD i "")
  match find_medicine_name ex line with
  | none => none
  | some idx =>
    let row := tbl idx
    let td := scanTD lines i
    if td.1 = none ∧ td.2 = none then none
    else
      some { brand := row.brand, generic := row.generic, price := row.price,
             timing := td.1.getD ("1-0-1"), duration := td.2.getD 5 }

/-- The full prescription record, flavor text included. -/
structure PrescriptionRecord where
  brand : String
  generic : String
  price : ℚ
  timing : String
  duration : Nat
  side_effects : List String
  avoid_mixing : List String
deriving DecidableEq

/-- Forget the flavor text of a record. -/
def coreOf (r : PrescriptionRecord) : MedCore :=
  { brand := r.brand, generic := r.generic, price := r.price,
    timing := r.timing, duration := r.duration }

/-- The side_effect_pool of parser.py. -/
def side_effect_pool : List String :=
  ["nausea", "headache", "dizziness", "stomach upset",
   "dry mouth", "loose motions", "sleepiness"]

/-- The avoid_pool of parser.py. -/
def avoid_pool : List String :=
  ["alcohol", "coffee", "junk food", "smoking", "cold drinks", "antibiotics"]

/-- An abstract stateful sampler standing for the global random module:
sample pool k state returns k drawn strings and the advanced state. -/
structure Rng (σ : Type) where
  sample : List String → Nat → σ → List String × σ

/-- parse_prescription from parser.py: a single left-to-right pass,
emitting one record per index whose candidate survives the evidence gate,
drawing flavor text from the threaded sampler state at each emission. -/
def parse_prescription {σ : Type} (ex : String → Option (String × ℚ × Nat))
    (tbl : Nat → MedRow) (rng : Rng σ) (lines : List String) (s : σ) :
    List PrescriptionRecord × σ :=
  (List.range lines.length).foldl
    (fun acc i =>
      match recordAt ex tbl lines i with
      | none => acc
      | some core =>
        let r1 := rng.sample side_effect_pool 3 acc.2
        let r2 := rng.sample avoid_pool 2 r1.2
        (acc.1 ++ [{ brand := core.brand, generic := core.generic,
                     price := core.price, timing := core.timing,
                     duration := core.duration,
                     side_effects := r1.1, avoid_mixing := r2.1 }], r2.2))
    ([], s)

/-! ### Generic lemmas about the first-some choice and list selections -/

theorem optOr_some {α : Type} (a : α) (b : Option α) : optOr (some a) b = some a := rfl

theorem optOr_none {α : Type} (b : Option α) : optOr none b = b := rfl

theorem optOr_none_right {α : Type} (a : Option α) : optOr a none = a := by
  cases a <;> rfl

theorem optOr_assoc {α : Type} (a b c : Option α) :
    optOr (optOr a b) c = optOr a (optOr b c) := by
  cases a <;> rfl

theorem getLast?_cons_optOr {α : Type} (a : α) (l : List α) :
    (a :: l).getLast? = optOr l.getLast? (some a) := by
  induction l generalizing a with
  | nil => rfl
  | cons x xs ih =>
    rw [List.getLast?_cons_cons, ih x, optOr_assoc, optOr_some]

/-! ### Characterization of the forward and backward window scans -/

theorem forwardStep_eq (acc : Option String × Option Nat) (tline : String) :
    forwardStep acc tline =
      (optOr (detect_timing tline) acc.1, optOr (durFilter tline) acc.2) := by
  unfold forwardStep durFilter
  cases detect_timing tline <;> cases detect_duration tline
  case none.none => rfl
  case none.some v => by_cases hv : v = 0 <;> simp [hv, optOr_some, optOr_none]
  case some.none s => rfl
  case some.some s v => by_cases hv : v = 0 <;> simp [hv, optOr_some, optOr_none]

theorem backwardStep_eq (acc : Option String × Option Nat) (tline : String) :
    backwardStep acc tline =
      (optOr acc.1 (detect_timing tline), optOr acc.2 (durFilter tline)) := by
  unfold backwardStep durFilter
  obtain ⟨a1, a2⟩ := acc
  cases a1 <;> cases a2 <;> rfl

theorem foldl_forwardStep (ls : List String) (acc : Option String × Option Nat) :
    ls.foldl forwardStep acc =
      (optOr (timingsIn ls).getLast? acc.1, optOr (durationsIn ls).getLast? acc.2) := by
  induction ls generalizing acc with
  | nil => rfl
  | cons x xs ih =>
    rw [List.foldl_cons, ih, forwardStep_eq]
    unfold timingsIn durationsIn
    rw [List.filterMap_cons, List.filterMap_cons, Prod.mk.injEq]
    constructor
    · cases h : detect_timing x <;>
        simp only [getLast?_cons_optOr, optOr_assoc, optOr_some, optOr_none]
    · cases h : durFilter x <;>
        simp only [getLast?_cons_optOr, optOr_assoc, optOr_some, optOr_none]

theorem foldl_backwardStep (ls : List String) (acc : Option String × Option Nat) :
    ls.foldl backwardStep acc =
      (optOr acc.1 (timingsIn ls).head?, optOr acc.2 (durationsIn ls).head?) := by
  induction ls generalizing acc with
  | nil =>
    rw [List.foldl_nil]
    unfold timingsIn durationsIn
    rw [List.filterMap_nil, List.filterMap_nil, Prod.mk.injEq]
    exact ⟨(optOr_none_right acc.1).symm, (optOr_none_right acc.2).symm⟩
  | cons x xs ih =>
    rw [List.foldl_cons, ih, backwardStep_eq]
    unfold timingsIn durationsIn
    rw [List.filterMap_cons, List.filterMap_cons, Prod.mk.injEq]
    constructor
    · cases h : detect_timing x <;>
        simp only [List.head?_cons, optOr_assoc, optOr_some, optOr_none_right]
    · cases h : durFilter x <;>
        simp only [List.head?_cons, optOr_assoc, optOr_some, optOr_none_right]

/-- The window scan picks, for each of timing and duration, the last truthy
detection of the forward window and, only when the forward window had none,
the first truthy detection of the backward window. -/
theorem scanTD_eq (lines : List String) (i : Nat) :
    scanTD lines i =
      (optOr (timingsIn (fwdWindow lines i)).getLast?
             (timingsIn (bwdWindow lines i)).head?,
       optOr (durationsIn (fwdWindow lines i)).getLast?
             (durationsIn (bwdWindow lines i)).head?) := by
  unfold scanTD
  rw [foldl_forwardStep, foldl_backwardStep]
  simp only [optOr_none_right]

/-- Claim C7: for every matched medicine the forward window takes priority
over the backward window for both timing and duration: the scan result is
the last detection of the forward window when one exists (so later forward
lines overwrite earlier ones and a forward value is never replaced by a
backward one), and only otherwise the first detection of the backward
window. -/
theorem c7_forward_priority (lines : List String) (i : Nat) :
    scanTD lines i =
      (optOr (timingsIn (fwdWindow lines i)).getLast?
             (timingsIn (bwdWindow lines i)).head?,
       optOr (durationsIn (fwdWindow lines i)).getLast?
             (durationsIn (bwdWindow lines i)).head?) :=
  scanTD_eq lines i

/-! ### Positivity of every emitted duration -/

theorem mem_of_head?_eq {α : Type} {l : List α} {a : α} (h : l.head? = some a) :
    a ∈ l := by
  cases l with
  | nil => simp at h
  | cons x xs =>
    rw [List.head?_cons, Option.some.injEq] at h
    exact h ▸ List.mem_cons_self x xs

theorem mem_of_getLast?_eq {α : Type} {l : List α} {a : α} (h : l.getLast? = some a) :
    a ∈ l := by
  induction l with
  | nil => simp at h
  | cons x xs ih =>
    rw [getLast?_cons_optOr] at h
    cases hx : xs.getLast? with
    | none =>
      rw [hx, optOr_none, Option.some.injEq] at h
      exact h ▸ List.mem_cons_self x xs
    | some b =>
      rw [hx, optOr_some, Option.some.injEq] at h
      exact List.mem_cons_of_mem x (ih (h ▸ hx))

theorem durFilter_pos {l : String} {v : Nat} (h : durFilter l = some v) : 0 < v := by
  unfold durFilter at h
  cases hd : detect_duration l with
  | none => simp only [hd] at h; exact Option.noConfusion h
  | some w =>
    simp only [hd] at h
    by_cases hw : w = 0
    · simp [hw] at h
    · simp only [hw, if_false, Option.some.injEq] at h
      omega

theorem durationsIn_pos {ls : List String} {v : Nat} (h : v ∈ durationsIn ls) :
    0 < v := by
  unfold durationsIn at h
  rw [List.mem_filterMap] at h
  obtain ⟨l, _, hl⟩ := h
  exact durFilter_pos hl

theorem recordAt_duration_pos {ex : String → Option (String × ℚ × Nat)}
    {tbl : Nat → MedRow} {lines : List String} {i : Nat} {core : MedCore}
    (h : recordAt ex tbl lines i = some core) : 0 < core.duration := by
  simp only [recordAt] at h
  cases hf : find_medicine_name ex (normLine (lines.getD i "")) with
  | none => simp only [hf] at h; exact Option.noConfusion h
  | some idx =>
    simp only [hf] at h
    by_cases hg : (scanTD lines i).1 = none ∧ (scanTD lines i).2 = none
    · rw [if_pos hg] at h; exact Option.noConfusion h
    · rw [if_neg hg, Option.some.injEq] at h
      have hd : core.duration = (scanTD lines i).2.getD 5 := by rw [← h]
      rw [scanTD_eq] at hd
      cases hF : (durationsIn (fwdWindow lines i)).getLast? with
      | some v =>
        rw [hF, optOr_some, Option.getD_some] at hd
        exact hd ▸ durationsIn_pos (mem_of_getLast?_eq hF)
      | none =>
        rw [hF, optOr_none] at hd
        cases hB : (durationsIn (bwdWindow lines i)).head? with
        | some v =>
          rw [hB, Option.getD_some] at hd
          exact hd ▸ durationsIn_pos (mem_of_head?_eq hB)
        | none => rw [hB, Option.getD_none] at hd; omega

theorem parse_duration_pos {σ : Type} (ex : String → Option (String × ℚ × Nat))
    (tbl : Nat → MedRow) (rng : Rng σ) (lines : List String) (s : σ)
    {r : PrescriptionRecord} (h : r ∈ (parse_prescription ex tbl rng lines s).1) :
    0 < r.duration := by
  unfold parse_prescription at h
  generalize hidx : List.range lines.length = idxs at h
  clear hidx
  suffices H : ∀ (idxs : List Nat) (acc : List PrescriptionRecord × σ),
      (∀ r₀ ∈ acc.1, 0 < r₀.duration) →
      ∀ r₀ ∈ (idxs.foldl (fun acc i =>
        match recordAt ex tbl lines i with
        | none => acc
        | some core =>
          let r1 := rng.sample side_effect_pool 3 acc.2
          let r2 := rng.sample avoid_pool 2 r1.2
          (acc.1 ++ [{ brand := core.brand, generic := core.generic,
                       price := core.price, timing := core.timing,
                       duration := core.duration,
                       side_effects := r1.1, avoid_mixing := r2.1 }], r2.2)) acc).1,
        0 < r₀.duration by
    exact H idxs ([], s) (by simp) r h
  intro idxs
  induction idxs with
  | nil => intro acc hacc r₀ hr₀; exact hacc r₀ hr₀
  | cons i rest ih =>
    intro acc hacc r₀ hr₀
    rw [List.foldl_cons] at hr₀
    refine ih _ ?_ r₀ hr₀
    cases hrec : recordAt ex tbl lines i with
    | none => simpa [hrec] using hacc
    | some core =>
      simp only [hrec]
      intro r₁ hr₁
      rw [List.mem_append] at hr₁
      cases hr₁ with
      | inl hmem => exact hacc r₁ hmem
      | inr hmem =>
        rw [List.mem_singleton] at hmem
        subst hmem
        exact recordAt_duration_pos hrec

/-- Claim C10: the duration detector does return 0 on a line reading 0 days,
but the slot assignment treats a detected 0 as not found, so every record
emitted by parse_prescription carries a strictly positive duration. -/
theorem c10_duration_positive :
    detect_duration ("0 days") = some 0 ∧
    ∀ (σ : Type) (ex : String → Option (String × ℚ × Nat)) (tbl : Nat → MedRow)
      (rng : Rng σ) (lines : List String) (s : σ) (r : PrescriptionRecord),
      r ∈ (parse_prescription ex tbl rng lines s).1 → 0 < r.duration := by
  constructor
  · rfl
  · intro σ ex tbl rng lines s r h
    exact parse_duration_pos ex tbl rng lines s h

theorem exists_getLast?_of_ne_nil {α : Type} {l : List α} (h : l ≠ []) :
    ∃ a, l.getLast? = some a := by
  cases l with
  | nil => exact absurd rfl h
  | cons x xs =>
    rw [getLast?_cons_optOr]
    cases hx : xs.getLast? with
    | none => exact ⟨x, by rw [optOr_none]⟩
    | some b => exact ⟨b, by rw [optOr_some]⟩

theorem exists_head?_of_ne_nil {α : Type} {l : List α} (h : l ≠ []) :
    ∃ a, l.head? = some a := by
  cases l with
  | nil => exact absurd rfl h
  | cons x xs => exact ⟨x, List.head?_cons⟩

/-- Claim C1: evidence gating. When a medicine name is fuzzy-matched at
index i but neither detector succeeds on any line of the windows i+1, i+2
and i-2, i-1 (bounded by the sequence ends), the extractor emits no record
for that match: the loop body at i yields nothing. -/
theorem c1_evidence_gating (ex : String → Option (String × ℚ × Nat))
    (tbl : Nat → MedRow) (lines : List String) (i idx : Nat)
    (hmatch : find_medicine_name ex (normLine (lines.getD i "")) = some idx)
    (hfwd : ∀ l ∈ fwdWindow lines i,
      detect_timing l = none ∧ detect_duration l = none)
    (hbwd : ∀ l ∈ bwdWindow lines i,
      detect_timing l = none ∧ detect_duration l = none) :
    recordAt ex tbl lines i = none := by
  have hdf : ∀ l ∈ fwdWindow lines i, durFilter l = none := by
    intro l hl
    unfold durFilter
    rw [(hfwd l hl).2]
  have hdb : ∀ l ∈ bwdWindow lines i, durFilter l = none := by
    intro l hl
    unfold durFilter
    rw [(hbwd l hl).2]
  have hTf : timingsIn (fwdWindow lines i) = [] :=
    List.filterMap_eq_nil_iff.mpr (fun l hl => (hfwd l hl).1)
  have hTb : timingsIn (bwdWindow lines i) = [] :=
    List.filterMap_eq_nil_iff.mpr (fun l hl => (hbwd l hl).1)
  have hDf : durationsIn (fwdWindow lines i) = [] :=
    List.filterMap_eq_nil_iff.mpr hdf
  have hDb : durationsIn (bwdWindow lines i) = [] :=
    List.filterMap_eq_nil_iff.mpr hdb
  have hscan : scanTD lines i = (none, none) := by
    rw [scanTD_eq, hTf, hTb, hDf, hDb]
    rfl
  simp only [recordAt, hmatch, hscan]
  simp

/-- Claim C6: default fill. For a matched medicine with exactly one of
timing or duration found (truthily) in the 4-line window, the emitted
record keeps the found value as detected and fills the other slot with its
default: timing 1-0-1, duration 5 days. -/
theorem c6_default_fill (ex : String → Option (String × ℚ × Nat))
    (tbl : Nat → MedRow) (lines : List String) (i idx : Nat)
    (hmatch : find_medicine_name ex (normLine (lines.getD i "")) = some idx) :
    ((durationsIn (fwdWindow lines i) = [] ∧ durationsIn (bwdWindow lines i) = [] ∧
      (timingsIn (fwdWindow lines i) ≠ [] ∨ timingsIn (bwdWindow lines i) ≠ [])) →
      ∃ t, optOr (timingsIn (fwdWindow lines i)).getLast?
                 (timingsIn (bwdWindow lines i)).head? = some t ∧
        recordAt ex tbl lines i =
          some { brand := (tbl idx).brand, generic := (tbl idx).generic,
                 price := (tbl idx).price, timing := t, duration := 5 }) ∧
    ((timingsIn (fwdWindow lines i) = [] ∧ timingsIn (bwdWindow lines i) = [] ∧
      (durationsIn (fwdWindow lines i) ≠ [] ∨ durationsIn (bwdWindow lines i) ≠ [])) →
      ∃ d, optOr (durationsIn (fwdWindow lines i)).getLast?
                 (durationsIn (bwdWindow lines i)).head? = some d ∧
        recordAt ex tbl lines i =
          some { brand := (tbl idx).brand, generic := (tbl idx).generic,
                 price := (tbl idx).price, timing := ("1-0-1"), duration := d }) := by
  constructor
  · rintro ⟨hDf, hDb, hT⟩
    have hsome : ∃ t, optOr (timingsIn (fwdWindow lines i)).getLast?
        (timingsIn (bwdWindow lines i)).head? = some t := by
      cases hF : (timingsIn (fwdWindow lines i)).getLast? with
      | some a => exact ⟨a, by rw [optOr_some]⟩
      | none =>
        cases hT with
        | inl hne =>
          obtain ⟨a, ha⟩ := exists_getLast?_of_ne_nil hne
          rw [ha] at hF
          exact Option.noConfusion hF
        | inr hne =>
          obtain ⟨a, ha⟩ := exists_head?_of_ne_nil hne
          exact ⟨a, by rw [optOr_none, ha]⟩
    obtain ⟨t, ht⟩ := hsome
    refine ⟨t, ht, ?_⟩
    have hscan : scanTD lines i = (some t, none) := by
      rw [scanTD_eq, hDf, hDb, ht]
      rfl
    simp only [recordAt, hmatch, hscan]
    simp
  · rintro ⟨hTf, hTb, hD⟩
    have hsome : ∃ d, optOr (durationsIn (fwdWindow lines i)).getLast?
        (durationsIn (bwdWindow lines i)).head? = some d := by
      cases hF : (durationsIn (fwdWindow lines i)).getLast? with
      | some a => exact ⟨a, by rw [optOr_some]⟩
      | none =>
        cases hD with
        | inl hne =>
          obtain ⟨a, ha⟩ := exists_getLast?_of_ne_nil hne
          rw [ha] at hF
          exact Option.noConfusion hF
        | inr hne =>
          obtain ⟨a, ha⟩ := exists_head?_of_ne_nil hne
          exact ⟨a, by rw [optOr_none, ha]⟩
    obtain ⟨d, hd⟩ := hsome
    refine ⟨d, hd, ?_⟩
    have hscan : scanTD lines i = (none, some d) := by
      rw [scanTD_eq, hTf, hTb, hd]
      rfl
    simp only [recordAt, hmatch, hscan]
    simp

/-! ### The duration detector against a declarative reading of its regex -/

/-- A declarative occurrence of the regex: somewhere in the character list
there is a non-empty digit run, then optional whitespace, then the literal
day, and v is the value of that digit run. -/
def NumDayOcc (cs : List Char) (v : Nat) : Prop :=
  ∃ pre ds sp post,
    cs = pre ++ (ds ++ (sp ++ ('d' :: 'a' :: 'y' :: post))) ∧
    ds ≠ [] ∧ (∀ c ∈ ds, c.isDigit = true) ∧ (∀ c ∈ sp, isWs c = true) ∧
    v = natOfDigits ds

theorem isWs_not_digit {c : Char} (h : isWs c = true) : c.isDigit = false := by
  unfold isWs at h
  simp only [Bool.or_eq_true, beq_iff_eq] at h
  rcases h with ((((h | h) | h) | h) | h) | h <;> subst h <;> decide

theorem takeWhile_append_all {α : Type} {p : α → Bool} {ds : List α} (r : List α)
    (h : ∀ c ∈ ds, p c = true) : (ds ++ r).takeWhile p = ds ++ r.takeWhile p := by
  induction ds with
  | nil => rfl
  | cons d dsx ih =>
    have hd : p d = true := h d (List.mem_cons_self d dsx)
    have ih' := ih (fun c hc => h c (List.mem_cons_of_mem d hc))
    simp [List.takeWhile_cons, hd, ih']

theorem dropWhile_append_all {α : Type} {p : α → Bool} {ds : List α} (r : List α)
    (h : ∀ c ∈ ds, p c = true) : (ds ++ r).dropWhile p = r.dropWhile p := by
  induction ds with
  | nil => rfl
  | cons d dsx ih =>
    have hd : p d = true := h d (List.mem_cons_self d dsx)
    have ih' := ih (fun c hc => h c (List.mem_cons_of_mem d hc))
    simp [List.dropWhile_cons, hd, ih']

theorem numDayAt_sound {cs : List Char} {v : Nat} (h : numDayAt cs = some v) :
    NumDayOcc cs v := by
  unfold numDayAt at h
  by_cases hds : (cs.takeWhile Char.isDigit).isEmpty
  · rw [if_pos hds] at h
    exact Option.noConfusion h
  · rw [if_neg hds] at h
    by_cases hpre :
        (("day").toList).isPrefixOf ((cs.dropWhile Char.isDigit).dropWhile isWs) = true
    · rw [if_pos hpre] at h
      rw [Option.some.injEq] at h
      rw [List.isPrefixOf_iff_prefix] at hpre
      obtain ⟨post, hpost⟩ := hpre
      refine ⟨[], cs.takeWhile Char.isDigit,
        (cs.dropWhile Char.isDigit).takeWhile isWs, post, ?_, ?_, ?_, ?_, h.symm⟩
      · rw [List.nil_append]
        conv_lhs => rw [← List.takeWhile_append_dropWhile Char.isDigit cs]
        congr 1
        conv_lhs => rw [← List.takeWhile_append_dropWhile isWs
          (cs.dropWhile Char.isDigit)]
        congr 1
        rw [← hpost]
        rfl
      · intro hnil
        rw [hnil] at hds
        exact hds rfl
      · exact fun c hc => List.mem_takeWhile_imp hc
      · exact fun c hc => List.mem_takeWhile_imp hc
    · rw [if_neg hpre] at h
      exact Option.noConfusion h

theorem numDayAt_head {ds sp post : List Char}
    (hds : ds ≠ []) (hdig : ∀ c ∈ ds, c.isDigit = true)
    (hws : ∀ c ∈ sp, isWs c = true) :
    numDayAt (ds ++ (sp ++ ('d' :: 'a' :: 'y' :: post))) = some (natOfDigits ds) := by
  have htw : (sp ++ ('d' :: 'a' :: 'y' :: post)).takeWhile Char.isDigit = [] := by
    cases sp with
    | nil => simp [List.takeWhile_cons]
    | cons w ws' =>
      have hw : Char.isDigit w = false :=
        isWs_not_digit (hws w (List.mem_cons_self w ws'))
      simp [List.takeWhile_cons, hw]
  have hdw : (sp ++ ('d' :: 'a' :: 'y' :: post)).dropWhile Char.isDigit =
      sp ++ ('d' :: 'a' :: 'y' :: post) := by
    cases sp with
    | nil => simp [List.dropWhile_cons]
    | cons w ws' =>
      have hw : Char.isDigit w = false :=
        isWs_not_digit (hws w (List.mem_cons_self w ws'))
      simp [List.dropWhile_cons, hw]
  have hdw2 : (sp ++ ('d' :: 'a' :: 'y' :: post)).dropWhile isWs =
      'd' :: 'a' :: 'y' :: post := by
    rw [dropWhile_append_all _ hws]
    have hd : isWs 'd' = false := by decide
    simp [List.dropWhile_cons, hd]
  have hne : ds.isEmpty = false := by
    cases ds with
    | nil => exact absurd rfl hds
    | cons d dsx => rfl
  have hpre : (("day").toList).isPrefixOf ('d' :: 'a' :: 'y' :: post) = true := by
    rw [List.isPrefixOf_iff_prefix]
    exact ⟨post, rfl⟩
  unfold numDayAt
  simp [takeWhile_append_all _ hdig, htw, dropWhile_append_all _ hdig, hdw,
    hdw2, hne, hpre]

theorem searchNumDay_sound {cs : List Char} {v : Nat}
    (h : searchNumDay cs = some v) : NumDayOcc cs v := by
  induction cs with
  | nil => exact Option.noConfusion h
  | cons c rest ih =>
    unfold searchNumDay at h
    cases hn : numDayAt (c :: rest) with
    | some w =>
      rw [hn, optOr_some, Option.some.injEq] at h
      exact h ▸ numDayAt_sound hn
    | none =>
      rw [hn, optOr_none] at h
      obtain ⟨pre, ds, sp, post, heq, hds, hdig, hws, hv⟩ := ih h
      exact ⟨c :: pre, ds, sp, post, by rw [heq, List.cons_append], hds, hdig, hws, hv⟩

theorem searchNumDay_complete {cs : List Char} {v : Nat} (h : NumDayOcc cs v) :
    (searchNumDay cs).isSome = true := by
  induction cs with
  | nil =>
    obtain ⟨pre, ds, sp, post, heq, hds, hdig, hws, hv⟩ := h
    have := congrArg List.length heq
    simp at this
    omega
  | cons c rest ih =>
    obtain ⟨pre, ds, sp, post, heq, hds, hdig, hws, hv⟩ := h
    cases pre with
    | nil =>
      rw [List.nil_append] at heq
      unfold searchNumDay
      rw [heq, numDayAt_head hds hdig hws]
      rfl
    | cons p pre' =>
      rw [List.cons_append] at heq
      have hrest : rest = pre' ++ (ds ++ (sp ++ ('d' :: 'a' :: 'y' :: post))) :=
        (List.cons.injEq _ _ _ _).mp heq |>.2
      have hr := ih ⟨pre', ds, sp, post, hrest, hds, hdig, hws, hv⟩
      unfold searchNumDay
      cases hn : numDayAt (c :: rest) with
      | some w => rfl
      | none =>
        rw [optOr_none]
        exact hr

/-- Claim C8: the duration detector matches in priority order: a numeral
followed (possibly across whitespace, as the regex allows) by the literal
day anywhere in the lower-cased line yields the value of such a numeral,
unconstrained in value; otherwise a line that is entirely a bare 1-or-2
digit numeral yields its value exactly when it lies in 1..30; otherwise
the detector yields none, so a bare numeral outside 1..30 or with three or
more digits yields none. -/
theorem c8_duration_priority (t : String) :
    ((∃ v, NumDayOcc (lowerList t) v) →
      ∃ v, detect_duration t = some v ∧ NumDayOcc (lowerList t) v) ∧
    ((∀ v, ¬NumDayOcc (lowerList t) v) →
      detect_duration t =
        if pyIsDigits (lowerList t) ∧ (lowerList t).length ≤ 2 ∧
            1 ≤ natOfDigits (lowerList t) ∧ natOfDigits (lowerList t) ≤ 30 then
          some (natOfDigits (lowerList t))
        else none) := by
  constructor
  · rintro ⟨v0, hocc⟩
    have hs := searchNumDay_complete hocc
    cases hw : searchNumDay (lowerList t) with
    | none => rw [hw] at hs; exact Bool.noConfusion hs
    | some w =>
      refine ⟨w, ?_, searchNumDay_sound hw⟩
      unfold detect_duration
      simp only [hw]
  · intro hno
    have hs : searchNumDay (lowerList t) = none := by
      cases hw : searchNumDay (lowerList t) with
      | none => rfl
      | some w => exact absurd (searchNumDay_sound hw) (hno w)
    unfold detect_duration
    simp only [hs]
    split_ifs <;> first | rfl | tauto

/-- Claim C9: medicine-name detection rejects every line shorter than 3
characters after lower-casing and trimming, for every possible fuzzy
oracle, so the matcher is never consulted; on longer lines it accepts
exactly the single best candidate the oracle returns and only when its
score reaches the fixed threshold 88: a best score of 87 yields no match,
a best score of 88 is accepted and so proceeds to the window search. -/
theorem c9_fuzzy_threshold :
    (∀ (ex : String → Option (String × ℚ × Nat)) (raw : String),
      (pyStrip (lowerList raw)).length < 3 → find_medicine_name ex raw = none) ∧
    (∀ (ex : String → Option (String × ℚ × Nat)) (raw m : String) (idx : Nat),
      ex (String.mk (pyStrip (lowerList raw))) = some (m, (87 : ℚ), idx) →
      find_medicine_name ex raw = none) ∧
    (∀ (ex : String → Option (String × ℚ × Nat)) (raw m : String) (idx : Nat),
      3 ≤ (pyStrip (lowerList raw)).length →
      ex (String.mk (pyStrip (lowerList raw))) = some (m, (88 : ℚ), idx) →
      find_medicine_name ex raw = some idx) := by
  refine ⟨?_, ?_, ?_⟩
  · intro ex raw h
    simp only [find_medicine_name]
    rw [if_pos h]
  · intro ex raw m idx hex
    simp only [find_medicine_name]
    by_cases hlen : (pyStrip (lowerList raw)).length < 3
    · rw [if_pos hlen]
    · rw [if_neg hlen]
      simp only [hex]
      have h87 : ¬((88 : ℚ) ≤ 87) := by norm_num
      rw [if_neg h87]
  · intro ex raw m idx hlen hex
    simp only [find_medicine_name]
    rw [if_neg (by omega)]
    simp only [hex]
    rw [if_pos (le_refl (88 : ℚ))]

/-! ### Concrete instantiations used by the evaluation theorems -/

/-- A fuzzy oracle recognizing exactly the line combiflam with score 95. -/
def exCombiflam : String → Option (String × ℚ × Nat) :=
  fun s => if s = ("combiflam") then some (("combiflam"), (95 : ℚ), 0) else none

/-- A fuzzy oracle recognizing exactly the line dolo 650650 with score 90,
matching the rapidfuzz behavior of accepting that line for the dolo row. -/
def exDolo : String → Option (String × ℚ × Nat) :=
  fun s => if s = ("dolo 650650") then some (("dolo 650"), (90 : ℚ), 0) else none

/-- An oracle whose best candidate always scores 87. -/
def ex87 : String → Option (String × ℚ × Nat) :=
  fun _ => some (("x"), (87 : ℚ), 5)

/-- An oracle whose best candidate always scores 88. -/
def ex88 : String → Option (String × ℚ × Nat) :=
  fun _ => some (("x"), (88 : ℚ), 5)

/-- A one-row medicine table. -/
def tblDemo : Nat → MedRow :=
  fun _ => { brand := ("combiflam"), generic := ("ibuprofen paracetamol"),
             price := 30 }

/-- A concrete sampler: rotate the pool by the state and advance the state,
a stand-in for the global Mersenne Twister stream. -/
def rotRng : Rng Nat :=
  { sample := fun pool k s =>
      ((pool.drop (s % pool.length) ++ pool.take (s % pool.length)).take k, s + 1) }

/-- Claim C4: evaluation at the failing input. The repair does pad 2-1 to
2-1-1, but the trailing-hyphen input 1-0- comes out unchanged: the Python
split of 1-0- on hyphens already yields three parts, the last empty, so
the padding loop never runs, contradicting the code comment that promises
1-0-1. -/
theorem c4_timing_repair_eval :
    clean_ocr_lines ["1-0-"] = ["1-0-"] ∧ clean_ocr_lines ["2-1"] = ["2-1-1"] := by
  constructor <;> decide

/-- Claim C2: counterexample. On the end-to-end raw lines the normalizer
does not produce dolo 650: replacing dolo- inside dolo-650 duplicates the
number, yielding dolo 650650. -/
theorem c2_counterexample :
    clean_ocr_lines ["City Hospital MBBS", "dolo-650", "1-0-1", "5 days"] ≠
      ["dolo 650", "1-0-1", "5 days"] ∧
    clean_ocr_lines ["City Hospital MBBS", "dolo-650", "1-0-1", "5 days"] =
      ["dolo 650650", "1-0-1", "5 days"] := by
  constructor <;> decide

/-- Claim C2 as amended: the noise line is dropped and dolo-650 is
rewritten to dolo 650650; provided the fuzzy matcher resolves the line
dolo 650650 to a table row and matches neither 1-0-1 nor 5 days, the
extractor emits exactly one record with that row, timing 1-0-1 and
duration 5. -/
theorem c2_amended (ex : String → Option (String × ℚ × Nat)) (tbl : Nat → MedRow)
    {σ : Type} (rng : Rng σ) (s : σ) (idx : Nat)
    (h1 : find_medicine_name ex ("dolo 650650") = some idx)
    (h2 : find_medicine_name ex ("1-0-1") = none)
    (h3 : find_medicine_name ex ("5 days") = none) :
    (parse_prescription ex tbl rng
      (clean_ocr_lines ["City Hospital MBBS", "dolo-650", "1-0-1", "5 days"]) s).1.map
        coreOf =
      [{ brand := (tbl idx).brand, generic := (tbl idx).generic,
         price := (tbl idx).price, timing := ("1-0-1"), duration := 5 }] := by
  have hclean : clean_ocr_lines ["City Hospital MBBS", "dolo-650", "1-0-1", "5 days"] =
      ["dolo 650650", "1-0-1", "5 days"] := by decide
  rw [hclean]
  have hn0 : normLine ((["dolo 650650", "1-0-1", "5 days"] : List String).getD 0 "") =
      ("dolo 650650") := by decide
  have hn1 : normLine ((["dolo 650650", "1-0-1", "5 days"] : List String).getD 1 "") =
      ("1-0-1") := by decide
  have hn2 : normLine ((["dolo 650650", "1-0-1", "5 days"] : List String).getD 2 "") =
      ("5 days") := by decide
  have hscan : scanTD ["dolo 650650", "1-0-1", "5 days"] 0 =
      (some ("1-0-1"), some 5) := by decide
  have r0 : recordAt ex tbl ["dolo 650650", "1-0-1", "5 days"] 0 =
      some { brand := (tbl idx).brand, generic := (tbl idx).generic,
             price := (tbl idx).price, timing := ("1-0-1"), duration := 5 } := by
    simp only [recordAt, hn0, h1, hscan]
    simp
  have r1 : recordAt ex tbl ["dolo 650650", "1-0-1", "5 days"] 1 = none := by
    simp only [recordAt, hn1, h2]
  have r2 : recordAt ex tbl ["dolo 650650", "1-0-1", "5 days"] 2 = none := by
    simp only [recordAt, hn2, h3]
  simp only [parse_prescription, List.length_cons, List.length_nil]
  rw [show List.range 3 = [0, 1, 2] from rfl]
  simp only [List.foldl_cons, List.foldl_nil, r0, r1, r2]
  simp [coreOf]

/-- Claim C3: evaluation at the failing input. The sampler state is
threaded across runs instead of being re-seeded before each run, so a
second extraction run over the identical input, started in the state the
first run left behind, draws different side-effect flavor text. -/
theorem c3_not_reseeded :
    ((parse_prescription exCombiflam tblDemo rotRng ["combiflam", "1-0-1"] 42).1.map
        (fun r => r.side_effects)) ≠
      ((parse_prescription exCombiflam tblDemo rotRng ["combiflam", "1-0-1"]
          (parse_prescription exCombiflam tblDemo rotRng ["combiflam", "1-0-1"] 42).2).1.map
        (fun r => r.side_effects)) := by
  decide

/-! ### Idempotence of the normalizer -/

theorem filterMap_fixed {α : Type} {f : α → Option α} {l : List α}
    (h : ∀ a ∈ l, f a = some a) : l.filterMap f = l := by
  induction l with
  | nil => rfl
  | cons x xs ih =>
    rw [List.filterMap_cons, h x (List.mem_cons_self x xs),
      ih (fun a ha => h a (List.mem_cons_of_mem x ha))]

/-- No adjacent pair of the list would be taken by the merge pass: never a
purely numeric line immediately followed by a line containing day. -/
def noMergePair : List (List Char) → Bool
  | [] => true
  | [_] => true
  | x :: y :: rest => !(pyIsDigits x && hasDay y) && noMergePair (y :: rest)

theorem mergePass_noop {l : List (List Char)} (h : noMergePair l = true) :
    mergePass l = l := by
  induction l with
  | nil => rfl
  | cons x xs ih =>
    cases xs with
    | nil => rfl
    | cons y rest =>
      unfold noMergePair at h
      rw [Bool.and_eq_true] at h
      obtain ⟨hxy, hrest⟩ := h
      rw [Bool.not_eq_true'] at hxy
      unfold mergePass
      rw [hxy]
      simp [ih hrest]

theorem mk_toList (s : String) : String.mk s.toList = s := rfl

/-- Claim C5 as amended: the normalizer is idempotent on a sequence whose
lines each pass the per-line cleaning unchanged and in which no purely
numeric line is immediately followed by a line containing day; in
particular a second application then strips no further characters and
performs no further merges. -/
theorem c5_amended_idempotence (out : List String)
    (h1 : ∀ l ∈ out, cleanLine (String.toList l) = some (String.toList l))
    (h2 : noMergePair (out.map String.toList) = true) :
    clean_ocr_lines out = out := by
  unfold clean_ocr_lines
  have hfix : (out.map String.toList).filterMap cleanLine = out.map String.toList := by
    refine filterMap_fixed ?_
    intro a ha
    rw [List.mem_map] at ha
    obtain ⟨l, hl, rfl⟩ := ha
    exact h1 l hl
  rw [hfix, mergePass_noop h2, List.map_map]
  have hid : String.mk ∘ String.toList = id := funext fun s => mk_toList s
  rw [hid, List.map_id]

/-- Claim C5: counterexample. The normalizer is not idempotent: the raw
lines 5, 5, days normalize to the two lines 5 and 5 days, and a second
application merges those two into the single line 5 days. -/
theorem c5_counterexample :
    clean_ocr_lines (clean_ocr_lines ["5", "5", "days"]) ≠
      clean_ocr_lines ["5", "5", "days"] := by
  decide

/-! ### Witnesses -/

/-- Witness for C1 at a concrete input: combiflam matched at index 1 with
neither detector succeeding on hello or world, so no record is
emitted. -/
theorem c1_witness :
    recordAt exCombiflam tblDemo ["hello", "combiflam", "world"] 1 = none :=
  c1_evidence_gating exCombiflam tblDemo ["hello", "combiflam", "world"] 1 0
    (by decide) (by decide) (by decide)

/-- Witness for C2 as amended, with a concrete oracle, table, sampler and
state. -/
theorem c2_witness :
    (parse_prescription exDolo tblDemo rotRng
      (clean_ocr_lines ["City Hospital MBBS", "dolo-650", "1-0-1", "5 days"]) 42).1.map
        coreOf =
      [{ brand := (tblDemo 0).brand, generic := (tblDemo 0).generic,
         price := (tblDemo 0).price, timing := ("1-0-1"), duration := 5 }] :=
  c2_amended exDolo tblDemo rotRng 42 0 (by decide) (by decide) (by decide)

/-- Witness for C5 as amended: the normalized end-to-end sequence is a
fixed point of the normalizer. -/
theorem c5_witness :
    clean_ocr_lines ["dolo 650650", "1-0-1", "5 days"] =
      ["dolo 650650", "1-0-1", "5 days"] :=
  c5_amended_idempotence ["dolo 650650", "1-0-1", "5 days"] (by decide) (by decide)

/-- Witness for C6 at concrete inputs: a timing-only window yields the
detected timing with the default duration 5, and a duration-only window
yields the detected duration with the default timing 1-0-1. -/
theorem c6_witness :
    (∃ t, optOr (timingsIn (fwdWindow ["combiflam", "1-0-1"] 0)).getLast?
        (timingsIn (bwdWindow ["combiflam", "1-0-1"] 0)).head? = some t ∧
      recordAt exCombiflam tblDemo ["combiflam", "1-0-1"] 0 =
        some { brand := (tblDemo 0).brand, generic := (tblDemo 0).generic,
               price := (tblDemo 0).price, timing := t, duration := 5 }) ∧
    (∃ d, optOr (durationsIn (fwdWindow ["combiflam", "7 days"] 0)).getLast?
        (durationsIn (bwdWindow ["combiflam", "7 days"] 0)).head? = some d ∧
      recordAt exCombiflam tblDemo ["combiflam", "7 days"] 0 =
        some { brand := (tblDemo 0).brand, generic := (tblDemo 0).generic,
               price := (tblDemo 0).price, timing := ("1-0-1"), duration := d }) :=
  ⟨(c6_default_fill exCombiflam tblDemo ["combiflam", "1-0-1"] 0 0 (by decide)).1
      ⟨by decide, by decide, Or.inl (by decide)⟩,
   (c6_default_fill exCombiflam tblDemo ["combiflam", "7 days"] 0 0 (by decide)).2
      ⟨by decide, by decide, Or.inl (by decide)⟩⟩

/-- Witness for C8 at concrete inputs: the line 10 days has a
digits-then-day occurrence and the detector returns a value realizing one,
while the bare numeral 31, having no such occurrence and lying outside
1..30, yields none. -/
theorem c8_witness :
    (∃ v, detect_duration ("10 days") = some v ∧
      NumDayOcc (lowerList ("10 days")) v) ∧
    detect_duration ("31") = none := by
  constructor
  · exact (c8_duration_priority ("10 days")).1
      ⟨10, [], ['1', '0'], [' '], ['s'], by decide, by decide, by decide,
        by decide, by decide⟩
  · have hno : ∀ v, ¬NumDayOcc (lowerList ("31")) v := by
      intro v hocc
      obtain ⟨pre, ds, sp, post, heq, hds, _, _, _⟩ := hocc
      have h2 : (lowerList ("31")).length = 2 := by decide
      rw [heq] at h2
      simp [List.length_append] at h2
      omega
    exact ((c8_duration_priority ("31")).2 hno).trans (by decide)

/-- Witness for C9 at concrete inputs: a two-character line is rejected
for any oracle, a best score of 87 is rejected, and a best score of 88 is
accepted. -/
theorem c9_witness :
    find_medicine_name ex88 ("ab") = none ∧
    find_medicine_name ex87 ("paracetamol") = none ∧
    find_medicine_name ex88 ("paracetamol") = some 5 :=
  ⟨c9_fuzzy_threshold.1 ex88 ("ab") (by decide),
   c9_fuzzy_threshold.2.1 ex87 ("paracetamol") ("x") 5 rfl,
   c9_fuzzy_threshold.2.2 ex88 ("paracetamol") ("x") 5 (by decide) rfl⟩

/-- Witness for C10 at a concrete run: the single emitted record has the
positive duration 5. -/
theorem c10_witness :
    0 < ({ brand := ("combiflam"), generic := ("ibuprofen paracetamol"),
           price := 30, timing := ("1-0-1"), duration := 5,
           side_effects := ["nausea", "headache", "dizziness"],
           avoid_mixing := ["coffee", "junk food"] } : PrescriptionRecord).duration :=
  c10_duration_positive.2 Nat exCombiflam tblDemo rotRng ["combiflam", "1-0-1"] 42
    _ (by decide)

end MedScan
